import Mathlib

/-!
# Verification of the dataset-partitioning and bottleneck-caching pipeline

A shallow embedding of `retrain.py`: the deterministic dataset partitioner
(`create_image_lists`), the path resolver (`get_image_path`,
`get_bottleneck_path`), the bottleneck cache (`get_or_create_bottleneck`),
the cached batch sampler (`get_random_cached_bottlenecks`), and the label
export performed by `main`.

Strings are modelled as lists of characters (`Str`); the Python byte string
fed to `hashlib.sha1` is modelled as the list of character codes.  Machine
arithmetic inside SHA-1 is modelled over `Nat` with explicit reduction
modulo `2^32`.  The floating-point percentile computation
`(h % 65536) * (100 / 65535.0)` is modelled by the exact rational
`(h % 65536) * (100 / 65535) : ℚ`; an exhaustive check over all 65536 hash
residues and all integer thresholds `0..200` shows the IEEE-double
comparison agrees with the exact rational comparison everywhere, so the
rational model is observationally identical for the integer percentage
flags the program accepts.
-/

set_option maxRecDepth 1000000

/-- Strings of the Python program, as lists of characters. -/
abbrev Str := List Char

/-- The byte string hashed by `hashlib.sha1`: character codes of the path
(the paths involved are ASCII, where Python 2 byte strings and character
codes coincide). -/
def strBytes (s : Str) : List Nat := s.map (fun c => c.toNat % 256)

/-! ## Basic path and string operations (`os.path`, `str.split`, `str.join`) -/

/-- `os.path.basename` for POSIX paths: everything after the last slash. -/
def basename (p : Str) : Str := (p.reverse.takeWhile (fun c => c ≠ '/')).reverse

/-- `os.path.join a b` for POSIX paths. -/
def os_path_join (a b : Str) : Str :=
  if b.head? = some '/' then b
  else if a = [] ∨ a.getLast? = some '/' then a ++ b
  else a ++ '/' :: b

/-- `pat` is an initial segment of `s`. -/
def leadsWith (pat s : Str) : Bool := s.take pat.length = pat

/-- `pat` is a final segment of `s` (used for the `*.ext` glob patterns). -/
def trailsWith (pat s : Str) : Bool := leadsWith pat.reverse s.reverse

/-- Python `s.split(sep)` for a one-character separator. -/
def pySplit (sep : Char) : Str → List Str
  | [] => [[]]
  | c :: rest =>
    if c = sep then [] :: pySplit sep rest
    else
      match pySplit sep rest with
      | [] => [[c]]
      | p :: ps => (c :: p) :: ps

/-- Python `sep.join(parts)` for a one-character separator. -/
def pyJoin (sep : Char) : List Str → Str
  | [] => []
  | [s] => s
  | s :: t :: rest => s ++ sep :: pyJoin sep (t :: rest)

/-! ## The grouping-marker strip: `re.sub(r'_nohash_.*$', '', file_name)` -/

/-- The reserved grouping marker. -/
def nohash_marker : Str := "_nohash_".data

/-- Index of the first occurrence of `pat` in `s`, if any. -/
def firstMatchIdx (pat : Str) : Str → Option Nat
  | [] => if leadsWith pat [] then some 0 else none
  | c :: rest =>
    if leadsWith pat (c :: rest) then some 0
    else (firstMatchIdx pat rest).map (· + 1)

/-- `re.sub(r'_nohash_.*$', '', file_name)`: delete everything from the first
occurrence of the grouping marker to the end of the string. -/
def hash_name (file_name : Str) : Str :=
  match firstMatchIdx nohash_marker file_name with
  | some i => file_name.take i
  | none => file_name

/-! ## Label-name derivation: `re.sub(r'[^a-z0-9]+', ' ', dir_name.lower())` -/

def isLowerAlnum (c : Char) : Bool :=
  ('a' ≤ c && c ≤ 'z') || ('0' ≤ c && c ≤ '9')

theorem dropWhile_length_le (p : Char → Bool) (l : Str) :
    (l.dropWhile p).length ≤ l.length := by
  induction l with
  | nil => simp [List.dropWhile]
  | cons c rest ih =>
    by_cases h : p c <;> simp [List.dropWhile, h]
    omega

/-- Collapse every maximal run of non-`[a-z0-9]` characters to one space;
the fuel argument (instantiated with the string length, which bounds the
number of steps) keeps the recursion structural. -/
def collapseFuel : Nat → Str → Str
  | _, [] => []
  | 0, _ :: _ => []
  | n + 1, c :: rest =>
    if isLowerAlnum c then c :: collapseFuel n rest
    else ' ' :: collapseFuel n (rest.dropWhile (fun d => ! isLowerAlnum d))

/-- Collapse every maximal run of non-`[a-z0-9]` characters to one space. -/
def collapseNonAlnum (s : Str) : Str := collapseFuel s.length s

/-- The label name derived from a directory name. -/
def label_of (dir_name : Str) : Str := collapseNonAlnum (dir_name.map Char.toLower)

/-! ## SHA-1 over byte lists, with `Nat` arithmetic modulo `2^32` -/

/-- Truncate to a 32-bit word. -/
def w32 (n : Nat) : Nat := n % 4294967296

/-- Rotate a 32-bit word left by `b` bits. -/
def rotl (b n : Nat) : Nat := w32 ((n <<< b) ||| (n >>> (32 - b)))

/-- Group bytes into 32-bit big-endian words. -/
def bytesToWords : List Nat → List Nat
  | b0 :: b1 :: b2 :: b3 :: rest =>
      (((b0 * 256 + b1) * 256 + b2) * 256 + b3) :: bytesToWords rest
  | _ => []

/-- The `width` big-endian bytes of `n`. -/
def beBytes (width n : Nat) : List Nat :=
  (List.range width).map (fun i => (n >>> (8 * (width - 1 - i))) % 256)

/-- SHA-1 padding: a `0x80` byte, zeros to 56 mod 64, the bit length on 64 bits. -/
def sha1pad (msg : List Nat) : List Nat :=
  let l := msg.length
  let zeros := (55 + 64 - l % 64) % 64
  msg ++ [128] ++ List.replicate zeros 0 ++ beBytes 8 (8 * l)

/-- Extend the 16 words of a block by `n` further schedule words. -/
def sha1extend (ws : List Nat) : Nat → List Nat
  | 0 => ws
  | n + 1 =>
      let k := ws.length
      let w := rotl 1 ((((ws.getD (k - 3) 0) ^^^ (ws.getD (k - 8) 0)) ^^^
                        (ws.getD (k - 14) 0)) ^^^ (ws.getD (k - 16) 0))
      sha1extend (ws ++ [w]) n

def sha1f (i b c d : Nat) : Nat :=
  if i < 20 then (b &&& c) ||| ((b ^^^ 4294967295) &&& d)
  else if i < 40 then (b ^^^ c) ^^^ d
  else if i < 60 then ((b &&& c) ||| (b &&& d)) ||| (c &&& d)
  else (b ^^^ c) ^^^ d

def sha1k (i : Nat) : Nat :=
  if i < 20 then 1518500249
  else if i < 40 then 1859775393
  else if i < 60 then 2400959708
  else 3395469782

def sha1round (st : Nat × Nat × Nat × Nat × Nat) (iw : Nat × Nat) :
    Nat × Nat × Nat × Nat × Nat :=
  let (a, b, c, d, e) := st
  let (i, w) := iw
  let t := w32 (rotl 5 a + sha1f i b c d + e + sha1k i + w)
  (t, a, rotl 30 b, c, d)

def sha1block (h : Nat × Nat × Nat × Nat × Nat) (block : List Nat) :
    Nat × Nat × Nat × Nat × Nat :=
  let ws := sha1extend (bytesToWords block) 64
  let (h0, h1, h2, h3, h4) := h
  let (a, b, c, d, e) := ((List.range 80).zip ws).foldl sha1round (h0, h1, h2, h3, h4)
  (w32 (h0 + a), w32 (h1 + b), w32 (h2 + c), w32 (h3 + d), w32 (h4 + e))

/-- Cut a byte list into 64-byte chunks (`n` is recursion fuel). -/
def chunks64 : List Nat → Nat → List (List Nat)
  | [], _ => []
  | bs, 0 => [bs]
  | bs, n + 1 =>
      if bs.length ≤ 64 then [bs]
      else bs.take 64 :: chunks64 (bs.drop 64) n

/-- SHA-1 digest of a byte list, as a 160-bit natural number; equals
`int(hashlib.sha1(msg).hexdigest(), 16)`. -/
def sha1 (msg : List Nat) : Nat :=
  let padded := sha1pad msg
  let bs := chunks64 padded padded.length
  let (h0, h1, h2, h3, h4) :=
    bs.foldl sha1block (1732584193, 4023233417, 2562383102, 271733878, 3285377520)
  (((h0 * 4294967296 + h1) * 4294967296 + h2) * 4294967296 + h3) * 4294967296 + h4

/-- SHA-1 of the standard test vector `"abc"`. -/
example : sha1 (strBytes "abc".data) = 0xa9993e364706816aba3e25717850c26c9cd0d89d := by
  decide

/-! ## The stable-split rule of `create_image_lists` -/

/-- The SHA-1 digest of the stripped file name, reduced modulo 65536. -/
def hash_mod (file_name : Str) : Nat := sha1 (strBytes (hash_name file_name)) % 65536

/-- The percentile `(int(sha1(hash_name).hexdigest(), 16) % 65536) * (100 / 65535.0)`
of a file name, as an exact rational. -/
def percentage_hash (file_name : Str) : ℚ := (hash_mod file_name : ℚ) * (100 / 65535)

/-- The rational comparison `h * (100 / 65535) < p` used by the split rule. -/
def pct_lt (h p : Nat) : Prop := (h : ℚ) * (100 / 65535) < (p : ℚ)

theorem pct_lt_iff (h p : Nat) : pct_lt h p ↔ h * 100 < p * 65535 := by
  unfold pct_lt
  rw [div_eq_mul_inv, ← mul_assoc, ← gt_iff_lt,
      show ((p : ℚ) = p * 65535 * 65535⁻¹) by field_simp, gt_iff_lt,
      mul_lt_mul_right (by norm_num : (0 : ℚ) < 65535⁻¹)]
  constructor <;> intro hlt <;> exact_mod_cast hlt

instance (h p : Nat) : Decidable (pct_lt h p) :=
  decidable_of_iff _ (pct_lt_iff h p).symm

/-- The three splits. -/
inductive Split
  | training
  | testing
  | validation
deriving DecidableEq

/-- The split decision of `create_image_lists` for one discovered file name
(a full path, as produced by `glob.glob`). -/
def split_of (file_name : Str) (testing_percentage validation_percentage : Nat) : Split :=
  if pct_lt (hash_mod file_name) validation_percentage then .validation
  else if pct_lt (hash_mod file_name) (testing_percentage + validation_percentage) then .testing
  else .training

/-- `split_of` is exactly the source's comparison of the rational percentile
against the percentage thresholds. -/
theorem split_of_eq_percentile_rule (f : Str) (tp vp : Nat) :
    split_of f tp vp =
      if percentage_hash f < (vp : ℚ) then .validation
      else if percentage_hash f < ((tp : ℚ) + (vp : ℚ)) then .testing
      else .training := by
  have hv : pct_lt (hash_mod f) vp ↔ percentage_hash f < (vp : ℚ) := Iff.rfl
  have ht : pct_lt (hash_mod f) (tp + vp) ↔
      percentage_hash f < ((tp : ℚ) + (vp : ℚ)) := by
    unfold pct_lt percentage_hash
    push_cast
    exact Iff.rfl
  unfold split_of
  simp only [hv, ht]

/-! ## Datasets as association lists (Python dicts in a fixed iteration order) -/

/-- One label's entry: the keys `'dir'`, `'training'`, `'testing'`,
`'validation'` of the per-label dictionary. -/
structure LabelEntry where
  dir : Str
  training : List Str
  testing : List Str
  validation : List Str
deriving DecidableEq

/-- The result dictionary of `create_image_lists`, in iteration order. -/
abbrev Dataset := List (Str × LabelEntry)

def dict_lookup {β : Type} : List (Str × β) → Str → Option β
  | [], _ => none
  | (k, v) :: rest, key => if k = key then some v else dict_lookup rest key

/-- Python `d[key] = v`: replace in place if the key is present, else
append at the end of the iteration order. -/
def dict_insert {β : Type} : List (Str × β) → Str → β → List (Str × β)
  | [], key, v => [(key, v)]
  | (k1, v1) :: rest, key, v =>
    if k1 = key then (key, v) :: rest else (k1, v1) :: dict_insert rest key v

/-! ## The filesystem seen by the partitioner -/

/-- The filesystem interactions of `create_image_lists`: `gfile.Exists` on
the image root, `os.walk` (the `x[0]` directory components), and the
directory listings consulted by `glob.glob`. -/
structure FileSystem where
  dir_exists : Bool
  walk_dirs : List Str
  listing : Str → List Str

/-- Whether `*.ext` matches `name` (glob never matches hidden files). -/
def glob_match (ext name : Str) : Bool :=
  trailsWith ('.' :: ext) name && ! decide (name.head? = some '.')

/-- `glob.glob(os.path.join(dir, '*.' + ext))`: matching entries of `dir`,
joined back under `dir`. -/
def glob_files (fs : FileSystem) (dir ext : Str) : List Str :=
  ((fs.listing dir).filter (glob_match ext)).map (fun name => os_path_join dir name)

/-- The extension case variants tried by `create_image_lists`. -/
def extensions : List Str := ["jpg".data, "jpeg".data, "JPG".data, "JPEG".data]

/-- The `file_list` accumulated for one subdirectory. -/
def files_for_dir (fs : FileSystem) (image_dir dir_name : Str) : List Str :=
  extensions.foldl (fun file_list ext =>
    file_list ++ glob_files fs (os_path_join image_dir dir_name) ext) []

/-- The per-subdirectory splitting loop of `create_image_lists`: distribute
each discovered file name's basename into the training / testing /
validation lists according to `split_of` on the full path. -/
def partition_files (tp vp : Nat) : List Str → List Str × List Str × List Str
  | [] => ([], [], [])
  | f :: rest =>
    let (tr, te, va) := partition_files tp vp rest
    match split_of f tp vp with
    | .training => (basename f :: tr, te, va)
    | .testing => (tr, basename f :: te, va)
    | .validation => (tr, te, basename f :: va)

/-- The main loop of `create_image_lists` over `os.walk` subdirectories. -/
def build_image_lists (fs : FileSystem) (image_dir : Str) (tp vp : Nat) :
    List Str → Dataset → Dataset
  | [], result => result
  | sub_dir :: rest, result =>
    let dir_name := basename sub_dir
    let file_list := files_for_dir fs image_dir dir_name
    if file_list = [] then build_image_lists fs image_dir tp vp rest result
    else
      let label_name := label_of dir_name
      let (tr, te, va) := partition_files tp vp file_list
      build_image_lists fs image_dir tp vp rest
        (dict_insert result label_name ⟨dir_name, tr, te, va⟩)

/-- `create_image_lists(image_dir, testing_percentage, validation_percentage)`. -/
def create_image_lists (fs : FileSystem) (image_dir : Str) (tp vp : Nat) :
    Option Dataset :=
  if fs.dir_exists then some (build_image_lists fs image_dir tp vp fs.walk_dirs [])
  else none

/-! ## Path resolver -/

/-- Lookup of `label_lists[category]`: the per-label dictionary has the four
keys `'dir'`, `'training'`, `'testing'`, `'validation'`; under the `'dir'`
key Python holds a string, whose indexing yields one-character strings. -/
def entry_get (e : LabelEntry) (category : Str) : Option (List Str) :=
  if category = "dir".data then some (e.dir.map (fun c => [c]))
  else if category = "training".data then some e.training
  else if category = "testing".data then some e.testing
  else if category = "validation".data then some e.validation
  else none

/-- `get_image_path(image_lists, label_name, index, image_dir, category)`.
The fatal branches (unknown label, unknown category, empty category list)
are modelled as errors: `tf.logging.fatal` logs and the subsequent
dictionary lookup / modulo-by-zero raises, so no path is returned. -/
def get_image_path (image_lists : Dataset) (label_name : Str) (index : Nat)
    (image_dir : Str) (category : Str) : Except Unit Str :=
  match dict_lookup image_lists label_name with
  | none => .error ()
  | some label_lists =>
    match entry_get label_lists category with
    | none => .error ()
    | some category_list =>
      if category_list.length = 0 then .error ()
      else
        let mod_index := index % category_list.length
        let base_name := category_list.getD mod_index []
        let sub_dir := label_lists.dir
        .ok (os_path_join (os_path_join image_dir sub_dir) base_name)

/-- `get_bottleneck_path`: the image path resolved under the bottleneck
root, with `'.txt'` appended. -/
def get_bottleneck_path (image_lists : Dataset) (label_name : Str) (index : Nat)
    (bottleneck_dir : Str) (category : Str) : Except Unit Str :=
  (get_image_path image_lists label_name index bottleneck_dir category).map
    (fun p => p ++ ('.' :: "txt".data))

/-! ## Bottleneck cache -/

/-- The external collaborators of `get_or_create_bottleneck`: the image
files on disk, the feature extractor (`run_bottleneck_on_image`), and the
scalar serializer `str` / parser `float`. -/
structure BEnv (α : Type) where
  image_content : Str → Option Str
  extract : Str → List α
  encode : α → Str
  decode : Str → α

/-- The on-disk bottleneck cache: file path to file contents. -/
abbrev Cache := List (Str × Str)

/-- `get_or_create_bottleneck`.  Returns the parsed vector, the cache after
the call, and the number of feature-extractor invocations performed. -/
def get_or_create_bottleneck {α : Type} (env : BEnv α) (cache : Cache)
    (image_lists : Dataset) (label_name : Str) (index : Nat) (image_dir : Str)
    (category : Str) (bottleneck_dir : Str) : Except Unit (List α × Cache × Nat) :=
  match dict_lookup image_lists label_name with
  | none => .error ()
  | some _label_lists =>
    match get_bottleneck_path image_lists label_name index bottleneck_dir category with
    | .error _ => .error ()
    | .ok bottleneck_path =>
      match
        (match dict_lookup cache bottleneck_path with
         | some _ => Except.ok (cache, 0)
         | none =>
           match get_image_path image_lists label_name index image_dir category with
           | .error _ => .error ()
           | .ok image_path =>
             match env.image_content image_path with
             | none => .error ()
             | some image_data =>
               let bottleneck_values := env.extract image_data
               let bottleneck_string := pyJoin ',' (bottleneck_values.map env.encode)
               .ok (dict_insert cache bottleneck_path bottleneck_string, 1) :
          Except Unit (Cache × Nat)) with
      | .error _ => .error ()
      | .ok (cache', n) =>
        match dict_lookup cache' bottleneck_path with
        | none => .error ()
        | some bottleneck_string =>
          .ok ((pySplit ',' bottleneck_string).map env.decode, cache', n)

/-! ## Cached batch sampler and label export -/

/-- `np.zeros(class_count)` with a `1.0` written at `label_index`. -/
def one_hot (class_count label_index : Nat) : List ℚ :=
  (List.range class_count).map (fun j => if j = label_index then 1 else 0)

/-- `image_lists.keys()`, in the model's fixed iteration order. -/
def dataset_keys (d : Dataset) : List Str := d.map Prod.fst

/-- `get_random_cached_bottlenecks`, with the random draws supplied as the
list `picks` of `(label_index, image_index)` pairs.  A `label_index` out of
range raises in Python (`keys()[label_index]`), modelled as an error. -/
def get_random_cached_bottlenecks {α : Type} (env : BEnv α) (image_lists : Dataset)
    (picks : List (Nat × Nat)) (category : Str) (bottleneck_dir image_dir : Str)
    (cache : Cache) : Except Unit (List (List α) × List (List ℚ) × Cache) :=
  match picks with
  | [] => .ok ([], [], cache)
  | (label_index, image_index) :: rest =>
    let class_count := image_lists.length
    if label_index < class_count then
      let label_name := (dataset_keys image_lists).getD label_index []
      match get_or_create_bottleneck env cache image_lists label_name image_index
          image_dir category bottleneck_dir with
      | .error _ => .error ()
      | .ok (bottleneck, cache', _) =>
        match get_random_cached_bottlenecks env image_lists rest category
            bottleneck_dir image_dir cache' with
        | .error _ => .error ()
        | .ok (btls, gts, cache'') =>
          .ok (bottleneck :: btls, one_hot class_count label_index :: gts, cache'')
    else .error ()

/-- The labels file written by `main`: `'\n'.join(image_lists.keys()) + '\n'`. -/
def output_labels_content (image_lists : Dataset) : Str :=
  pyJoin '\n' (dataset_keys image_lists) ++ ['\n']

/-! ## Orchestrator (`main`) up to the class-count configuration checks -/

inductive MainOutcome (γ : Type)
  | crashed
  | config_error
  | completed (result : γ)
deriving DecidableEq

/-- The prefix of `main`: build the dataset, then refuse to train unless at
least two labels exist; everything after the checks (distortion setup,
bottleneck warming, the trainable layer and the training loop) is the
opaque continuation `train`, which is reached only when the checks pass.
A missing image directory makes `create_image_lists` return `None` and
`main` crash on `None.keys()`, modelled as `crashed`. -/
def main_model {γ : Type} (fs : FileSystem) (image_dir : Str) (tp vp : Nat)
    (train : Dataset → γ) : MainOutcome γ :=
  match create_image_lists fs image_dir tp vp with
  | none => .crashed
  | some image_lists =>
    if image_lists.length = 0 then .config_error
    else if image_lists.length = 1 then .config_error
    else .completed (train image_lists)

/-! ## C1: the stable-split rule, stated from the specification's words -/

/-- The stable-split rule as the specification words it: strip any suffix
beginning with the grouping marker to form the hash key, take the SHA-1
digest of that key as an integer, reduce it modulo 65536, scale it to a
percentile, and compare the percentile against `validationPct` and
`validationPct + testingPct`. -/
def spec_split (file_name : Str) (validationPct testingPct : Nat) : Split :=
  let hashKey := hash_name file_name
  let percentile : ℚ := ((sha1 (strBytes hashKey) % 65536 : Nat) : ℚ) * 100 / 65535
  if percentile < (validationPct : ℚ) then .validation
  else if percentile < (validationPct : ℚ) + (testingPct : ℚ) then .testing
  else .training

theorem spec_split_eq_split_of (f : Str) (tp vp : Nat) :
    spec_split f vp tp = split_of f tp vp := by
  have e1 : (((sha1 (strBytes (hash_name f)) % 65536 : Nat) : ℚ) * 100 / 65535 <
      (vp : ℚ)) ↔ pct_lt (hash_mod f) vp := by
    unfold pct_lt hash_mod
    rw [mul_div_assoc]
  have e2 : (((sha1 (strBytes (hash_name f)) % 65536 : Nat) : ℚ) * 100 / 65535 <
      (vp : ℚ) + (tp : ℚ)) ↔ pct_lt (hash_mod f) (tp + vp) := by
    unfold pct_lt hash_mod
    rw [mul_div_assoc]
    push_cast
    rw [add_comm (vp : ℚ) (tp : ℚ)]
  unfold spec_split split_of
  simp only [e1, e2]

/-! ## Lemmas about the grouping-marker strip -/

theorem leadsWith_append (pat x t : Str) (h : pat.length ≤ x.length) :
    leadsWith pat (x ++ t) = leadsWith pat x := by
  unfold leadsWith
  rw [List.take_append_eq_append_take, Nat.sub_eq_zero_of_le h, List.take_zero,
      List.append_nil]

theorem leadsWith_self (pat t : Str) : leadsWith pat (pat ++ t) = true := by
  rw [leadsWith_append pat pat t (le_refl _)]
  unfold leadsWith
  simp

theorem hash_name_of_leads (s : Str) (h : leadsWith nohash_marker s = true) :
    hash_name s = [] := by
  cases s with
  | nil =>
    unfold leadsWith nohash_marker at h
    simp at h
  | cons c rest =>
    have hfm : firstMatchIdx nohash_marker (c :: rest) = some 0 := by
      simp only [firstMatchIdx, h]
      simp
    unfold hash_name
    rw [hfm]
    simp

theorem hash_name_cons (c : Char) (s : Str)
    (h : leadsWith nohash_marker (c :: s) = false) :
    hash_name (c :: s) = c :: hash_name s := by
  have hfm : firstMatchIdx nohash_marker (c :: s) =
      (firstMatchIdx nohash_marker s).map (· + 1) := by
    simp only [firstMatchIdx, h]
    simp
  unfold hash_name
  rw [hfm]
  cases hm : firstMatchIdx nohash_marker s with
  | none => simp
  | some i => simp [List.take_succ_cons]

/-- Stripping at the grouping marker ignores everything after the first
occurrence of the marker. -/
theorem hash_name_marker (p s t : Str) :
    hash_name (p ++ nohash_marker ++ s) = hash_name (p ++ nohash_marker ++ t) := by
  induction p with
  | nil =>
    simp only [List.nil_append]
    rw [hash_name_of_leads _ (leadsWith_self _ _),
        hash_name_of_leads _ (leadsWith_self _ _)]
  | cons c p ih =>
    simp only [List.cons_append, List.append_assoc]
    simp only [List.append_assoc] at ih
    have key : ∀ u : Str, leadsWith nohash_marker (c :: (p ++ (nohash_marker ++ u))) =
        leadsWith nohash_marker (c :: (p ++ nohash_marker)) := by
      intro u
      rw [show c :: (p ++ (nohash_marker ++ u)) = (c :: (p ++ nohash_marker)) ++ u by
            simp]
      exact leadsWith_append _ _ _ (by simp; omega)
    cases hc : leadsWith nohash_marker (c :: (p ++ nohash_marker)) with
    | true =>
      have h1 : hash_name (c :: (p ++ (nohash_marker ++ s))) = [] :=
        hash_name_of_leads _ (by rw [key s]; exact hc)
      have h2 : hash_name (c :: (p ++ (nohash_marker ++ t))) = [] :=
        hash_name_of_leads _ (by rw [key t]; exact hc)
      exact h1.trans h2.symm
    | false =>
      have h1 : hash_name (c :: (p ++ (nohash_marker ++ s))) =
          c :: hash_name (p ++ (nohash_marker ++ s)) :=
        hash_name_cons _ _ (by rw [key s]; exact hc)
      have h2 : hash_name (c :: (p ++ (nohash_marker ++ t))) =
          c :: hash_name (p ++ (nohash_marker ++ t)) :=
        hash_name_cons _ _ (by rw [key t]; exact hc)
      refine h1.trans (Eq.trans ?_ h2.symm)
      rw [ih]

/-! ## Claim theorems C1 and C4 -/

/-- C1: every file name discovered by the partitioner is assigned by
`create_image_lists`'s splitting loop exactly according to the stable-split
rule of the specification (`spec_split`): the training, testing and
validation lists are precisely the basenames of the discovered files whose
spec-rule split is training, testing, validation respectively, in
discovery order, for all percentages. -/
theorem claim_C1_stable_split_rule (files : List Str) (tp vp : Nat) :
    partition_files tp vp files =
      ((files.filter (fun f => spec_split f vp tp = Split.training)).map basename,
       (files.filter (fun f => spec_split f vp tp = Split.testing)).map basename,
       (files.filter (fun f => spec_split f vp tp = Split.validation)).map basename) := by
  induction files with
  | nil => rfl
  | cons f rest ih =>
    simp only [partition_files, ih, List.filter_cons, spec_split_eq_split_of]
    cases h : split_of f tp vp <;> simp [h]

/-- C4: two file names in the same subfolder that differ only in their
suffix after the grouping marker receive the same split from the
partitioner's split rule, for all testing and validation percentages. -/
theorem claim_C4_grouping_invariant (p s1 s2 : Str) (tp vp : Nat) :
    split_of (p ++ nohash_marker ++ s1) tp vp =
      split_of (p ++ nohash_marker ++ s2) tp vp := by
  unfold split_of hash_mod
  rw [hash_name_marker p s1 s2]

/-! ## Claim C10: the hash covers the full path, the lists store basenames -/

/-- A concrete image tree `rootA/daisy/leaf.jpg`. -/
def fs_rootA : FileSystem where
  dir_exists := true
  walk_dirs := ["rootA".data, "rootA/daisy".data]
  listing := fun d => if d = "rootA/daisy".data then ["leaf.jpg".data] else []

/-- The same tree placed under a different image root `rootB`. -/
def fs_rootB : FileSystem where
  dir_exists := true
  walk_dirs := ["rootB".data, "rootB/daisy".data]
  listing := fun d => if d = "rootB/daisy".data then ["leaf.jpg".data] else []

/-- C10: the partitioner's split hash is computed over the full glob path
(image root and label subdirectory included), not the base filename: the
same base filename `leaf.jpg` under image root `rootA` is assigned to
validation but under `rootB` to training (at 10% testing, 50% validation),
while in both datasets the lists store only the base filename. -/
theorem claim_C10_full_path_hashed :
    basename "rootA/daisy/leaf.jpg".data = "leaf.jpg".data ∧
    basename "rootB/daisy/leaf.jpg".data = "leaf.jpg".data ∧
    split_of "rootA/daisy/leaf.jpg".data 10 50 = Split.validation ∧
    split_of "rootB/daisy/leaf.jpg".data 10 50 = Split.training ∧
    create_image_lists fs_rootA "rootA".data 10 50 =
      some [("daisy".data, ⟨"daisy".data, [], [], ["leaf.jpg".data]⟩)] ∧
    create_image_lists fs_rootB "rootB".data 10 50 =
      some [("daisy".data, ⟨"daisy".data, ["leaf.jpg".data], [], []⟩)] := by
  refine ⟨by decide, by decide, by decide, by decide, by decide, by decide⟩


/-! ## Dictionary lemmas -/

theorem dict_lookup_insert_self {β : Type} (d : List (Str × β)) (k : Str) (v : β) :
    dict_lookup (dict_insert d k v) k = some v := by
  induction d with
  | nil => simp [dict_insert, dict_lookup]
  | cons p rest ih =>
    obtain ⟨k1, v1⟩ := p
    by_cases h : k1 = k
    · simp [dict_insert, dict_lookup, h]
    · simp [dict_insert, dict_lookup, h, ih]

theorem dict_lookup_insert_other {β : Type} (d : List (Str × β)) (k k' : Str) (v : β)
    (h : k' ≠ k) : dict_lookup (dict_insert d k v) k' = dict_lookup d k' := by
  induction d with
  | nil => simp [dict_insert, dict_lookup, Ne.symm h]
  | cons p rest ih =>
    obtain ⟨k1, v1⟩ := p
    by_cases h1 : k1 = k
    · subst h1
      simp [dict_insert, dict_lookup, Ne.symm h]
    · by_cases h2 : k1 = k'
      · simp [dict_insert, dict_lookup, h1, h2, h]
      · simp [dict_insert, dict_lookup, h1, h2, ih]

theorem dict_insert_keys {β : Type} (d : List (Str × β)) (k : Str) (v : β) :
    (dict_insert d k v).map Prod.fst =
      if (dict_lookup d k).isSome then d.map Prod.fst else d.map Prod.fst ++ [k] := by
  induction d with
  | nil => simp [dict_insert, dict_lookup]
  | cons p rest ih =>
    obtain ⟨k1, v1⟩ := p
    by_cases h : k1 = k
    · simp [dict_insert, dict_lookup, h]
    · have hl : dict_lookup ((k1, v1) :: rest) k = dict_lookup rest k := by
        simp [dict_lookup, h]
      simp only [dict_insert, if_neg h, List.map_cons, hl]
      rw [ih]
      by_cases hs : (dict_lookup rest k).isSome
      · simp [hs]
      · simp [hs]

theorem dict_lookup_none_iff {β : Type} (d : List (Str × β)) (k : Str) :
    dict_lookup d k = none ↔ k ∉ d.map Prod.fst := by
  induction d with
  | nil => simp [dict_lookup]
  | cons p rest ih =>
    obtain ⟨k1, v1⟩ := p
    simp only [List.map_cons]
    constructor
    · intro hnone hmem
      unfold dict_lookup at hnone
      by_cases h : k1 = k
      · rw [if_pos h] at hnone
        exact Option.noConfusion hnone
      · rw [if_neg h] at hnone
        rcases List.mem_cons.mp hmem with h1 | h1
        · exact h h1.symm
        · exact (ih.mp hnone) h1
    · intro hmem
      unfold dict_lookup
      by_cases h : k1 = k
      · exact absurd (h ▸ List.mem_cons_self k1 _) hmem
      · rw [if_neg h]
        exact ih.mpr (fun hm => hmem (List.mem_cons_of_mem _ hm))

theorem dict_insert_keys_nodup {β : Type} (d : List (Str × β)) (k : Str) (v : β)
    (h : (d.map Prod.fst).Nodup) : ((dict_insert d k v).map Prod.fst).Nodup := by
  rw [dict_insert_keys]
  cases hl : dict_lookup d k with
  | some w => simpa [hl] using h
  | none =>
    have hk : k ∉ d.map Prod.fst := (dict_lookup_none_iff d k).mp hl
    simp only [hl, Option.isSome_none, Bool.false_eq_true, if_false]
    refine List.Nodup.append h (List.nodup_singleton k) ?_
    intro x hx hmem
    rw [List.mem_singleton] at hmem
    subst hmem
    exact hk hx

/-! ## Lemmas about the partitioner's main loop -/

theorem partition_files_filter (files : List Str) (tp vp : Nat) :
    partition_files tp vp files =
      ((files.filter (fun f => split_of f tp vp = Split.training)).map basename,
       (files.filter (fun f => split_of f tp vp = Split.testing)).map basename,
       (files.filter (fun f => split_of f tp vp = Split.validation)).map basename) := by
  induction files with
  | nil => rfl
  | cons f rest ih =>
    simp only [partition_files, ih, List.filter_cons]
    cases h : split_of f tp vp <;> simp [h]

theorem count_partition (files : List Str) (tp vp : Nat) (name : Str) :
    (partition_files tp vp files).1.count name +
      (partition_files tp vp files).2.1.count name +
      (partition_files tp vp files).2.2.count name =
      (files.map basename).count name := by
  induction files with
  | nil => simp [partition_files]
  | cons f rest ih =>
    rcases hp : partition_files tp vp rest with ⟨tr, te, va⟩
    rw [hp] at ih
    dsimp only at ih
    simp only [partition_files, hp, List.map_cons]
    cases h : split_of f tp vp <;>
      simp only [h, List.count_cons] <;> omega

theorem count_one_of_nodup {α : Type} [BEq α] [LawfulBEq α] (l : List α) (a : α)
    (hn : l.Nodup) (hm : a ∈ l) : l.count a = 1 := by
  induction l with
  | nil => simp at hm
  | cons b rest ih =>
    rw [List.count_cons]
    rcases List.nodup_cons.mp hn with ⟨hb, hrest⟩
    rcases List.mem_cons.mp hm with h | h
    · subst h
      rw [List.count_eq_zero.mpr hb]
      simp
    · rw [ih hrest h]
      have hba : ¬ (b == a) = true := by
        simp only [beq_iff_eq]
        intro hba
        exact hb (hba ▸ h)
      simp [hba]

theorem build_skip (fs : FileSystem) (image_dir : Str) (tp vp : Nat)
    (dirs : List Str) (acc : Dataset) (L : Str)
    (h : ∀ d' ∈ dirs, files_for_dir fs image_dir (basename d') ≠ [] →
        label_of (basename d') ≠ L) :
    dict_lookup (build_image_lists fs image_dir tp vp dirs acc) L =
      dict_lookup acc L := by
  induction dirs generalizing acc with
  | nil => rfl
  | cons d rest ih =>
    simp only [build_image_lists]
    by_cases hf : files_for_dir fs image_dir (basename d) = []
    · rw [if_pos hf]
      exact ih _ (fun d' hd' => h d' (List.mem_cons_of_mem _ hd'))
    · rw [if_neg hf]
      rcases hp : partition_files tp vp (files_for_dir fs image_dir (basename d)) with
        ⟨tr, te, va⟩
      simp only [hp]
      rw [ih _ (fun d' hd' => h d' (List.mem_cons_of_mem _ hd'))]
      exact dict_lookup_insert_other _ _ _ _
        (Ne.symm (h d (List.mem_cons_self _ _) hf))

theorem build_found (fs : FileSystem) (image_dir : Str) (tp vp : Nat)
    (sub_dir : Str) (post : List Str) (acc : Dataset)
    (hfiles : files_for_dir fs image_dir (basename sub_dir) ≠ [])
    (huniq : ∀ d' ∈ post, files_for_dir fs image_dir (basename d') ≠ [] →
        label_of (basename d') ≠ label_of (basename sub_dir)) :
    dict_lookup (build_image_lists fs image_dir tp vp (sub_dir :: post) acc)
        (label_of (basename sub_dir)) =
      some ⟨basename sub_dir,
            (partition_files tp vp (files_for_dir fs image_dir (basename sub_dir))).1,
            (partition_files tp vp (files_for_dir fs image_dir (basename sub_dir))).2.1,
            (partition_files tp vp (files_for_dir fs image_dir (basename sub_dir))).2.2⟩ := by
  simp only [build_image_lists]
  rw [if_neg hfiles]
  rcases hp : partition_files tp vp (files_for_dir fs image_dir (basename sub_dir)) with
    ⟨tr, te, va⟩
  simp only [hp]
  rw [build_skip fs image_dir tp vp post _ _ huniq]
  exact dict_lookup_insert_self _ _ _

theorem build_append (fs : FileSystem) (image_dir : Str) (tp vp : Nat)
    (l1 l2 : List Str) (acc : Dataset) :
    build_image_lists fs image_dir tp vp (l1 ++ l2) acc =
      build_image_lists fs image_dir tp vp l2
        (build_image_lists fs image_dir tp vp l1 acc) := by
  induction l1 generalizing acc with
  | nil => rfl
  | cons d rest ih =>
    simp only [List.cons_append, build_image_lists]
    by_cases hf : files_for_dir fs image_dir (basename d) = []
    · rw [if_pos hf, if_pos hf]
      exact ih _
    · rw [if_neg hf, if_neg hf]
      rcases hp : partition_files tp vp (files_for_dir fs image_dir (basename d)) with
        ⟨tr, te, va⟩
      simp only [hp]
      exact ih _

theorem build_keys_nodup (fs : FileSystem) (image_dir : Str) (tp vp : Nat)
    (dirs : List Str) (acc : Dataset) (h : (acc.map Prod.fst).Nodup) :
    ((build_image_lists fs image_dir tp vp dirs acc).map Prod.fst).Nodup := by
  induction dirs generalizing acc with
  | nil => exact h
  | cons d rest ih =>
    simp only [build_image_lists]
    by_cases hf : files_for_dir fs image_dir (basename d) = []
    · rw [if_pos hf]
      exact ih _ h
    · rw [if_neg hf]
      rcases hp : partition_files tp vp (files_for_dir fs image_dir (basename d)) with
        ⟨tr, te, va⟩
      simp only [hp]
      exact ih _ (dict_insert_keys_nodup _ _ _ h)

/-! ## Claim C2: each discovered file lands in exactly one split list -/

/-- C2: for a subfolder processed by `create_image_lists` (root present,
non-empty file list, label not reassigned by a later subfolder), the
resulting entry's three lists partition the discovered basenames: the
multiset union of training, testing and validation equals the discovered
file multiset, and when the discovered basenames are distinct every
discovered file appears in the three lists exactly once in total. -/
theorem claim_C2_partition_coverage (fs : FileSystem) (image_dir : Str) (tp vp : Nat)
    (pre post : List Str) (sub_dir : Str)
    (hroot : fs.dir_exists = true)
    (hwalk : fs.walk_dirs = pre ++ sub_dir :: post)
    (hfiles : files_for_dir fs image_dir (basename sub_dir) ≠ [])
    (huniq : ∀ d' ∈ post, files_for_dir fs image_dir (basename d') ≠ [] →
        label_of (basename d') ≠ label_of (basename sub_dir))
    (hnodup : ((files_for_dir fs image_dir (basename sub_dir)).map basename).Nodup) :
    ∃ d e, create_image_lists fs image_dir tp vp = some d ∧
      dict_lookup d (label_of (basename sub_dir)) = some e ∧
      (∀ name : Str, e.training.count name + e.testing.count name +
          e.validation.count name =
          ((files_for_dir fs image_dir (basename sub_dir)).map basename).count name) ∧
      (∀ name ∈ (files_for_dir fs image_dir (basename sub_dir)).map basename,
          e.training.count name + e.testing.count name + e.validation.count name = 1) := by
  refine ⟨build_image_lists fs image_dir tp vp fs.walk_dirs [],
          ⟨basename sub_dir,
           (partition_files tp vp (files_for_dir fs image_dir (basename sub_dir))).1,
           (partition_files tp vp (files_for_dir fs image_dir (basename sub_dir))).2.1,
           (partition_files tp vp (files_for_dir fs image_dir (basename sub_dir))).2.2⟩,
          ?_, ?_, ?_, ?_⟩
  · unfold create_image_lists
    rw [hroot]
    simp
  · rw [hwalk, build_append]
    exact build_found fs image_dir tp vp sub_dir post _ hfiles huniq
  · intro name
    exact count_partition _ tp vp name
  · intro name hmem
    have h1 := count_partition (files_for_dir fs image_dir (basename sub_dir)) tp vp name
    rw [count_one_of_nodup _ _ hnodup hmem] at h1
    exact h1

/-- Witness for C2: the concrete tree `rootA/daisy/leaf.jpg`. -/
theorem claim_C2_partition_coverage_witness :
    ∃ d e, create_image_lists fs_rootA "rootA".data 10 50 = some d ∧
      dict_lookup d (label_of (basename "rootA/daisy".data)) = some e ∧
      (∀ name : Str, e.training.count name + e.testing.count name +
          e.validation.count name =
          ((files_for_dir fs_rootA "rootA".data
              (basename "rootA/daisy".data)).map basename).count name) ∧
      (∀ name ∈ (files_for_dir fs_rootA "rootA".data
          (basename "rootA/daisy".data)).map basename,
          e.training.count name + e.testing.count name +
            e.validation.count name = 1) :=
  claim_C2_partition_coverage fs_rootA "rootA".data 10 50
    ["rootA".data] [] "rootA/daisy".data
    (by decide) (by decide) (by decide)
    (by intro d' hd'; simp at hd') (by decide)

/-! ## Claims C5 and C9: the path resolver -/

/-- A small concrete dataset used by several witnesses. -/
def demo_entry : LabelEntry :=
  ⟨"daisy".data, ["leaf.jpg".data, "rose.jpg".data], ["tulip.jpg".data],
   ["lily.jpg".data]⟩

/-- A one-label concrete dataset. -/
def demo_lists : Dataset := [("daisy".data, demo_entry)]

/-- C5: for a known label and known split with a non-empty list, the image
path for any index equals the image path for `index mod length`, and the
bottleneck path is exactly the image path resolved under the cache root
with `'.txt'` appended — hence it wraps around identically. -/
theorem claim_C5_index_wraparound (image_lists : Dataset) (label_name : Str)
    (index : Nat) (image_dir bottleneck_dir category : Str) (e : LabelEntry)
    (l : List Str)
    (hl : dict_lookup image_lists label_name = some e)
    (hc : entry_get e category = some l)
    (hne : l ≠ []) :
    get_image_path image_lists label_name index image_dir category =
      get_image_path image_lists label_name (index % l.length) image_dir category ∧
    get_bottleneck_path image_lists label_name index bottleneck_dir category =
      (get_image_path image_lists label_name index bottleneck_dir category).map
        (fun p => p ++ ('.' :: "txt".data)) ∧
    get_bottleneck_path image_lists label_name index bottleneck_dir category =
      get_bottleneck_path image_lists label_name (index % l.length) bottleneck_dir
        category := by
  have hlen : ¬ l.length = 0 := fun h => hne (List.length_eq_zero.mp h)
  have him : get_image_path image_lists label_name index image_dir category =
      get_image_path image_lists label_name (index % l.length) image_dir category := by
    unfold get_image_path
    simp only [hl, hc]
    rw [if_neg hlen, if_neg hlen, Nat.mod_mod_of_dvd index dvd_rfl]
  have hbt : get_image_path image_lists label_name index bottleneck_dir category =
      get_image_path image_lists label_name (index % l.length) bottleneck_dir
        category := by
    unfold get_image_path
    simp only [hl, hc]
    rw [if_neg hlen, if_neg hlen, Nat.mod_mod_of_dvd index dvd_rfl]
  refine ⟨him, rfl, ?_⟩
  unfold get_bottleneck_path
  rw [hbt]

/-- Witness for C5: the concrete dataset, training split, index 7 wrapping
to index 1 of a two-element list. -/
theorem claim_C5_index_wraparound_witness :
    get_image_path demo_lists "daisy".data 7 "root".data "training".data =
      get_image_path demo_lists "daisy".data (7 % 2) "root".data "training".data ∧
    get_bottleneck_path demo_lists "daisy".data 7 "cache".data "training".data =
      (get_image_path demo_lists "daisy".data 7 "cache".data "training".data).map
        (fun p => p ++ ('.' :: "txt".data)) ∧
    get_bottleneck_path demo_lists "daisy".data 7 "cache".data "training".data =
      get_bottleneck_path demo_lists "daisy".data (7 % 2) "cache".data
        "training".data := by
  have h := claim_C5_index_wraparound demo_lists "daisy".data 7 "root".data
    "cache".data "training".data demo_entry
    ["leaf.jpg".data, "rose.jpg".data] (by decide) (by decide) (by decide)
  exact ⟨h.1, h.2.1, h.2.2⟩

deriving instance DecidableEq for Except

/-- Counterexample for C9: `'dir'` is not one of the three split names, so
a call with category `'dir'` is a call with an unknown split name; yet
`get_image_path` does not fail on it — the `category not in label_lists`
check accepts the reserved `'dir'` dictionary key, and the call returns a
path normally (built from a single character of the directory-name
string). -/
theorem claim_C9_counterexample :
    ("dir".data ≠ "training".data ∧ "dir".data ≠ "testing".data ∧
      "dir".data ≠ "validation".data) ∧
    get_image_path demo_lists "daisy".data 0 "root".data "dir".data =
      Except.ok "root/daisy/d".data := by
  refine ⟨⟨by decide, by decide, by decide⟩, by decide⟩

/-- C9 (amended): `get_image_path` returns a path exactly when the label is
known, the category is one of the four dictionary keys of the label's
entry — the three split names or the reserved `'dir'` key — and the
looked-up list is non-empty; in every other case (unknown label, category
not a dictionary key, empty list) it fails and returns no path. -/
theorem claim_C9_lookup_errors_amended (image_lists : Dataset) (label_name : Str)
    (index : Nat) (image_dir category : Str) :
    ((∃ p, get_image_path image_lists label_name index image_dir category =
        Except.ok p) ↔
      (∃ e l, dict_lookup image_lists label_name = some e ∧
        entry_get e category = some l ∧ l ≠ [])) ∧
    ((get_image_path image_lists label_name index image_dir category =
        Except.error ()) ↔
      ¬ (∃ e l, dict_lookup image_lists label_name = some e ∧
        entry_get e category = some l ∧ l ≠ [])) := by
  have main : (∃ p, get_image_path image_lists label_name index image_dir category =
      Except.ok p) ↔
      (∃ e l, dict_lookup image_lists label_name = some e ∧
        entry_get e category = some l ∧ l ≠ []) := by
    simp only [get_image_path]
    cases hl : dict_lookup image_lists label_name with
    | none => simp
    | some e0 =>
      cases hg : entry_get e0 category with
      | none => simp [hg]
      | some l =>
        by_cases hnil : l = []
        · subst hnil
          simp [hg]
        · have hlen : ¬ l.length = 0 := fun h => hnil (List.length_eq_zero.mp h)
          simp only [hg]
          rw [if_neg hlen]
          constructor
          · intro _
            exact ⟨e0, l, rfl, hg, hnil⟩
          · intro _
            exact ⟨_, rfl⟩
  refine ⟨main, ?_⟩
  cases hres : get_image_path image_lists label_name index image_dir category with
  | error u =>
    cases u
    constructor
    · intro _ hex
      obtain ⟨p, hp⟩ := main.mpr hex
      rw [hres] at hp
      exact Except.noConfusion hp
    · intro _
      rfl
  | ok p =>
    constructor
    · intro h
      exact Except.noConfusion h
    · intro hn
      exact absurd (main.mp ⟨p, hres⟩) hn

/-! ## Claims C3 and C6: the bottleneck cache -/

theorem goc_unknown_label {α : Type} (env : BEnv α) (cache : Cache)
    (image_lists : Dataset) (label_name : Str) (index : Nat)
    (image_dir category bottleneck_dir : Str)
    (hl : dict_lookup image_lists label_name = none) :
    get_or_create_bottleneck env cache image_lists label_name index image_dir
      category bottleneck_dir = .error () := by
  simp only [get_or_create_bottleneck, hl]

theorem goc_hit {α : Type} (env : BEnv α) (cache : Cache) (image_lists : Dataset)
    (label_name : Str) (index : Nat) (image_dir category bottleneck_dir : Str)
    (e : LabelEntry) (bp s : Str)
    (hl : dict_lookup image_lists label_name = some e)
    (hb : get_bottleneck_path image_lists label_name index bottleneck_dir category =
      .ok bp)
    (hc : dict_lookup cache bp = some s) :
    get_or_create_bottleneck env cache image_lists label_name index image_dir
      category bottleneck_dir = .ok ((pySplit ',' s).map env.decode, cache, 0) := by
  simp only [get_or_create_bottleneck, hl, hb, hc]

theorem goc_miss {α : Type} (env : BEnv α) (cache : Cache) (image_lists : Dataset)
    (label_name : Str) (index : Nat) (image_dir category bottleneck_dir : Str)
    (e : LabelEntry) (bp ip img : Str)
    (hl : dict_lookup image_lists label_name = some e)
    (hb : get_bottleneck_path image_lists label_name index bottleneck_dir category =
      .ok bp)
    (hc : dict_lookup cache bp = none)
    (hi : get_image_path image_lists label_name index image_dir category = .ok ip)
    (hg : env.image_content ip = some img) :
    get_or_create_bottleneck env cache image_lists label_name index image_dir
      category bottleneck_dir =
      .ok ((pySplit ',' (pyJoin ',' ((env.extract img).map env.encode))).map env.decode,
           dict_insert cache bp (pyJoin ',' ((env.extract img).map env.encode)), 1) := by
  simp only [get_or_create_bottleneck, hl, hb, hc, hi, hg, dict_lookup_insert_self]

theorem goc_miss_noimg {α : Type} (env : BEnv α) (cache : Cache)
    (image_lists : Dataset) (label_name : Str) (index : Nat)
    (image_dir category bottleneck_dir : Str) (e : LabelEntry) (bp : Str)
    (hl : dict_lookup image_lists label_name = some e)
    (hb : get_bottleneck_path image_lists label_name index bottleneck_dir category =
      .ok bp)
    (hc : dict_lookup cache bp = none)
    (hi : get_image_path image_lists label_name index image_dir category =
      .error ()) :
    get_or_create_bottleneck env cache image_lists label_name index image_dir
      category bottleneck_dir = .error () := by
  simp only [get_or_create_bottleneck, hl, hb, hc, hi]

theorem goc_miss_nocontent {α : Type} (env : BEnv α) (cache : Cache)
    (image_lists : Dataset) (label_name : Str) (index : Nat)
    (image_dir category bottleneck_dir : Str) (e : LabelEntry) (bp ip : Str)
    (hl : dict_lookup image_lists label_name = some e)
    (hb : get_bottleneck_path image_lists label_name index bottleneck_dir category =
      .ok bp)
    (hc : dict_lookup cache bp = none)
    (hi : get_image_path image_lists label_name index image_dir category = .ok ip)
    (hg : env.image_content ip = none) :
    get_or_create_bottleneck env cache image_lists label_name index image_dir
      category bottleneck_dir = .error () := by
  simp only [get_or_create_bottleneck, hl, hb, hc, hi, hg]

/-- C3: when the cache file for a key exists, `get_or_create_bottleneck`
performs no extractor call; calling it twice in sequence for the same key
performs at most one extractor call in total — exactly one when the key
was initially uncached — the second call is a pure cache hit (no extractor
call, cache unchanged), and both calls return the same vector. -/
theorem claim_C3_cache_hit_semantics {α : Type} (env : BEnv α) (cache : Cache)
    (image_lists : Dataset) (label_name : Str) (index : Nat)
    (image_dir category bottleneck_dir bpath : Str)
    (v1 v2 : List α) (c1 c2 : Cache) (n1 n2 : Nat)
    (hb : get_bottleneck_path image_lists label_name index bottleneck_dir category =
      .ok bpath)
    (h1 : get_or_create_bottleneck env cache image_lists label_name index image_dir
      category bottleneck_dir = .ok (v1, c1, n1))
    (h2 : get_or_create_bottleneck env c1 image_lists label_name index image_dir
      category bottleneck_dir = .ok (v2, c2, n2)) :
    ((dict_lookup cache bpath).isSome → n1 = 0) ∧
    (dict_lookup cache bpath = none → n1 = 1) ∧
    n2 = 0 ∧ v2 = v1 ∧ c2 = c1 ∧ n1 + n2 ≤ 1 := by
  cases hl : dict_lookup image_lists label_name with
  | none =>
    rw [goc_unknown_label env cache image_lists label_name index image_dir category
      bottleneck_dir hl] at h1
    exact absurd h1 (by simp)
  | some e =>
    cases hc : dict_lookup cache bpath with
    | some s =>
      rw [goc_hit env cache image_lists label_name index image_dir category
        bottleneck_dir e bpath s hl hb hc] at h1
      simp only [Except.ok.injEq, Prod.mk.injEq] at h1
      obtain ⟨hv1, hc1, hn1⟩ := h1
      rw [goc_hit env c1 image_lists label_name index image_dir category
        bottleneck_dir e bpath s hl hb (by rw [← hc1]; exact hc)] at h2
      simp only [Except.ok.injEq, Prod.mk.injEq] at h2
      obtain ⟨hv2, hc2, hn2⟩ := h2
      refine ⟨fun _ => hn1.symm, ?_, hn2.symm, ?_, ?_, ?_⟩
      · intro hnone
        exact Option.noConfusion hnone
      · rw [← hv2, ← hv1]
      · rw [← hc2]
      · omega
    | none =>
      cases hi : get_image_path image_lists label_name index image_dir category with
      | error u =>
        cases u
        rw [goc_miss_noimg env cache image_lists label_name index image_dir category
          bottleneck_dir e bpath hl hb hc hi] at h1
        exact absurd h1 (by simp)
      | ok ip =>
        cases hg : env.image_content ip with
        | none =>
          rw [goc_miss_nocontent env cache image_lists label_name index image_dir
            category bottleneck_dir e bpath ip hl hb hc hi hg] at h1
          exact absurd h1 (by simp)
        | some img =>
          rw [goc_miss env cache image_lists label_name index image_dir category
            bottleneck_dir e bpath ip img hl hb hc hi hg] at h1
          simp only [Except.ok.injEq, Prod.mk.injEq] at h1
          obtain ⟨hv1, hc1, hn1⟩ := h1
          have hlk : dict_lookup c1 bpath =
              some (pyJoin ',' ((env.extract img).map env.encode)) := by
            rw [← hc1]
            exact dict_lookup_insert_self _ _ _
          rw [goc_hit env c1 image_lists label_name index image_dir category
            bottleneck_dir e bpath _ hl hb hlk] at h2
          simp only [Except.ok.injEq, Prod.mk.injEq] at h2
          obtain ⟨hv2, hc2, hn2⟩ := h2
          refine ⟨?_, fun _ => hn1.symm, hn2.symm, ?_, ?_, ?_⟩
          · intro hsome
            simp at hsome
          · rw [← hv2, ← hv1]
          · rw [← hc2]
          · omega

/-- A concrete extractor environment over `Bool` feature components. -/
def demo_env : BEnv Bool where
  image_content := fun p => if p = "root/daisy/leaf.jpg".data then some "IMG".data
    else none
  extract := fun _ => [true, false]
  encode := fun b => if b then ['1'] else ['0']
  decode := fun s => decide (s = ['1'])

/-- Witness for C3: a concrete uncached key, computed then re-read. -/
theorem claim_C3_cache_hit_semantics_witness :
    ((dict_lookup ([] : Cache) "cache/daisy/leaf.jpg.txt".data).isSome → 1 = 0) ∧
    (dict_lookup ([] : Cache) "cache/daisy/leaf.jpg.txt".data = none → 1 = 1) ∧
    0 = 0 ∧ ([true, false] : List Bool) = [true, false] ∧
    ([("cache/daisy/leaf.jpg.txt".data, "1,0".data)] : Cache) =
      [("cache/daisy/leaf.jpg.txt".data, "1,0".data)] ∧ 1 + 0 ≤ 1 :=
  claim_C3_cache_hit_semantics demo_env [] demo_lists "daisy".data 0 "root".data
    "training".data "cache".data "cache/daisy/leaf.jpg.txt".data
    [true, false] [true, false] [("cache/daisy/leaf.jpg.txt".data, "1,0".data)]
    [("cache/daisy/leaf.jpg.txt".data, "1,0".data)] 1 0
    (by decide) (by decide) (by decide)

theorem pySplit_no_sep (sep : Char) (s : Str) (h : sep ∉ s) :
    pySplit sep s = [s] := by
  induction s with
  | nil => rfl
  | cons c rest ih =>
    have hcs : ¬ c = sep := fun hh => h (hh ▸ List.mem_cons_self c rest)
    simp only [pySplit, if_neg hcs]
    rw [ih (fun hm => h (List.mem_cons_of_mem _ hm))]

theorem pySplit_append (sep : Char) (s r : Str) (h : sep ∉ s) :
    pySplit sep (s ++ sep :: r) = s :: pySplit sep r := by
  induction s with
  | nil => simp [pySplit]
  | cons c rest ih =>
    have hcs : ¬ c = sep := fun hh => h (hh ▸ List.mem_cons_self c rest)
    simp only [List.cons_append, pySplit, if_neg hcs, List.append_eq]
    rw [ih (fun hm => h (List.mem_cons_of_mem _ hm))]

theorem pyJoin_split (sep : Char) (parts : List Str) (hne : parts ≠ [])
    (h : ∀ p ∈ parts, sep ∉ p) :
    pySplit sep (pyJoin sep parts) = parts := by
  induction parts with
  | nil => exact absurd rfl hne
  | cons s rest ih =>
    cases rest with
    | nil => exact pySplit_no_sep sep s (h s (List.mem_cons_self s []))
    | cons t rest2 =>
      rw [show pyJoin sep (s :: t :: rest2) = s ++ sep :: pyJoin sep (t :: rest2)
            from rfl,
          pySplit_append sep s _ (h s (List.mem_cons_self s _)),
          ih (by simp) (fun p hp => h p (List.mem_cons_of_mem _ hp))]

theorem pyJoin_split_trailing (sep : Char) (parts : List Str) (hne : parts ≠ [])
    (h : ∀ p ∈ parts, sep ∉ p) :
    pySplit sep (pyJoin sep parts ++ [sep]) = parts ++ [[]] := by
  induction parts with
  | nil => exact absurd rfl hne
  | cons s rest ih =>
    cases rest with
    | nil =>
      rw [show pyJoin sep [s] ++ [sep] = s ++ sep :: [] from rfl,
          pySplit_append sep s [] (h s (List.mem_cons_self s []))]
      rfl
    | cons t rest2 =>
      rw [show pyJoin sep (s :: t :: rest2) ++ [sep] =
            s ++ sep :: (pyJoin sep (t :: rest2) ++ [sep]) by
          simp [pyJoin],
          pySplit_append sep s _ (h s (List.mem_cons_self s _)),
          ih (by simp) (fun p hp => h p (List.mem_cons_of_mem _ hp))]
      rfl

theorem forall2_map_of_pointwise {α : Type} (R : α → α → Prop) (g : α → α)
    (l : List α) (h : ∀ x ∈ l, R (g x) x) : List.Forall₂ R (l.map g) l := by
  induction l with
  | nil => exact List.Forall₂.nil
  | cons x rest ih =>
    exact List.Forall₂.cons (h x (List.mem_cons_self x rest))
      (ih (fun y hy => h y (List.mem_cons_of_mem _ hy)))

/-- C6: on an uncached key, `get_or_create_bottleneck` serializes the
extractor's vector as a comma-delimited record, writes it to the cache
file, reads that file back and parses it; the parse of the serialization
round-trips, so the returned vector is the componentwise
parse-of-serialization of the extractor's vector, and it matches the
extractor's vector up to any tolerance relation `R` respected by the
scalar encode/decode pair. -/
theorem claim_C6_roundtrip {α : Type} (env : BEnv α) (cache : Cache)
    (image_lists : Dataset) (label_name : Str) (index : Nat)
    (image_dir category bottleneck_dir bpath ipath img : Str)
    (v : List α) (c' : Cache) (n : Nat) (R : α → α → Prop) (e : LabelEntry)
    (hl : dict_lookup image_lists label_name = some e)
    (hb : get_bottleneck_path image_lists label_name index bottleneck_dir category =
      .ok bpath)
    (hc : dict_lookup cache bpath = none)
    (hi : get_image_path image_lists label_name index image_dir category = .ok ipath)
    (hg : env.image_content ipath = some img)
    (h : get_or_create_bottleneck env cache image_lists label_name index image_dir
      category bottleneck_dir = .ok (v, c', n))
    (hne : env.extract img ≠ [])
    (hcomma : ∀ x ∈ env.extract img, ',' ∉ env.encode x)
    (hR : ∀ x ∈ env.extract img, R (env.decode (env.encode x)) x) :
    c' = dict_insert cache bpath (pyJoin ',' ((env.extract img).map env.encode)) ∧
    dict_lookup c' bpath = some (pyJoin ',' ((env.extract img).map env.encode)) ∧
    v = (env.extract img).map (fun x => env.decode (env.encode x)) ∧
    List.Forall₂ R v (env.extract img) := by
  rw [goc_miss env cache image_lists label_name index image_dir category
    bottleneck_dir e bpath ipath img hl hb hc hi hg] at h
  simp only [Except.ok.injEq, Prod.mk.injEq] at h
  obtain ⟨hv, hcc, _⟩ := h
  have hparts : (env.extract img).map env.encode ≠ [] := by
    intro hmap
    exact hne (List.map_eq_nil_iff.mp hmap)
  have hnosep : ∀ p ∈ (env.extract img).map env.encode, ',' ∉ p := by
    intro p hp
    obtain ⟨x, hx, hpx⟩ := List.mem_map.mp hp
    exact hpx ▸ hcomma x hx
  have hsplit := pyJoin_split ',' ((env.extract img).map env.encode) hparts hnosep
  have hvv : v = (env.extract img).map (fun x => env.decode (env.encode x)) := by
    rw [← hv, hsplit, List.map_map]
    rfl
  refine ⟨hcc.symm, ?_, hvv, ?_⟩
  · rw [← hcc]
    exact dict_lookup_insert_self _ _ _
  · rw [hvv]
    exact forall2_map_of_pointwise R _ _ hR

/-- Witness for C6: the concrete environment, uncached key, exact
round-trip (`R` is equality). -/
theorem claim_C6_roundtrip_witness :
    ([("cache/daisy/leaf.jpg.txt".data, "1,0".data)] : Cache) =
      dict_insert [] "cache/daisy/leaf.jpg.txt".data
        (pyJoin ',' ((demo_env.extract "IMG".data).map demo_env.encode)) ∧
    dict_lookup [("cache/daisy/leaf.jpg.txt".data, "1,0".data)]
        "cache/daisy/leaf.jpg.txt".data =
      some (pyJoin ',' ((demo_env.extract "IMG".data).map demo_env.encode)) ∧
    ([true, false] : List Bool) =
      (demo_env.extract "IMG".data).map
        (fun x => demo_env.decode (demo_env.encode x)) ∧
    List.Forall₂ Eq ([true, false] : List Bool) (demo_env.extract "IMG".data) :=
  claim_C6_roundtrip demo_env [] demo_lists "daisy".data 0 "root".data
    "training".data "cache".data "cache/daisy/leaf.jpg.txt".data
    "root/daisy/leaf.jpg".data "IMG".data
    [true, false] [("cache/daisy/leaf.jpg.txt".data, "1,0".data)] 1 Eq demo_entry
    (by decide) (by decide) (by decide) (by decide) (by decide) (by decide)
    (by decide) (by decide) (by decide)

/-! ## Claims C7 and C8: label order, one-hot indices, refusing to train -/

theorem sampler_ground_truths {α : Type} (env : BEnv α) (d : Dataset)
    (picks : List (Nat × Nat)) (category bottleneck_dir image_dir : Str) :
    ∀ (cache : Cache) (btls : List (List α)) (gts : List (List ℚ)) (c' : Cache),
    get_random_cached_bottlenecks env d picks category bottleneck_dir image_dir
      cache = .ok (btls, gts, c') →
    gts = picks.map (fun p => one_hot d.length p.1) ∧ ∀ p ∈ picks, p.1 < d.length := by
  induction picks with
  | nil =>
    intro cache btls gts c' h
    simp only [get_random_cached_bottlenecks, Except.ok.injEq, Prod.mk.injEq] at h
    obtain ⟨_, h2, _⟩ := h
    exact ⟨h2.symm.trans (by simp), by simp⟩
  | cons p rest ih =>
    intro cache btls gts c' h
    obtain ⟨li, ii⟩ := p
    simp only [get_random_cached_bottlenecks] at h
    by_cases hlt : li < d.length
    · rw [if_pos hlt] at h
      cases hgo : get_or_create_bottleneck env cache d ((dataset_keys d).getD li [])
          ii image_dir category bottleneck_dir with
      | error u =>
        rw [hgo] at h
        simp at h
      | ok res =>
        obtain ⟨b1, cache1, m1⟩ := res
        rw [hgo] at h
        dsimp only at h
        cases hrec : get_random_cached_bottlenecks env d rest category
            bottleneck_dir image_dir cache1 with
        | error u =>
          rw [hrec] at h
          simp at h
        | ok res2 =>
          obtain ⟨bt, gt, c2⟩ := res2
          rw [hrec] at h
          simp only [Except.ok.injEq, Prod.mk.injEq] at h
          obtain ⟨_, hg, _⟩ := h
          obtain ⟨ihg, ihb⟩ := ih cache1 bt gt c2 hrec
          constructor
          · rw [← hg, ihg]
            rfl
          · intro q hq
            rcases List.mem_cons.mp hq with hq1 | hq2
            · exact hq1 ▸ hlt
            · exact ihb q hq2
    · rw [if_neg hlt] at h
      simp at h

theorem collapseFuel_chars (n : Nat) (s : Str) (c : Char)
    (h : c ∈ collapseFuel n s) : isLowerAlnum c = true ∨ c = ' ' := by
  induction n generalizing s with
  | zero =>
    cases s <;> simp [collapseFuel] at h
  | succ n ih =>
    cases s with
    | nil => simp [collapseFuel] at h
    | cons c0 rest =>
      simp only [collapseFuel] at h
      by_cases hc0 : isLowerAlnum c0
      · rw [if_pos hc0] at h
        rcases List.mem_cons.mp h with h1 | h1
        · exact Or.inl (h1 ▸ hc0)
        · exact ih _ h1
      · rw [if_neg hc0] at h
        rcases List.mem_cons.mp h with h1 | h1
        · exact Or.inr h1
        · exact ih _ h1

theorem newline_not_in_label (dir_name : Str) : '\n' ∉ label_of dir_name := by
  intro h
  rcases collapseFuel_chars _ _ _ h with h1 | h1
  · exact absurd h1 (by decide)
  · exact absurd h1 (by decide)

theorem build_keys_labels (fs : FileSystem) (image_dir : Str) (tp vp : Nat)
    (dirs : List Str) (acc : Dataset) (k : Str)
    (hk : k ∈ (build_image_lists fs image_dir tp vp dirs acc).map Prod.fst) :
    k ∈ acc.map Prod.fst ∨ ∃ d, k = label_of (basename d) := by
  induction dirs generalizing acc with
  | nil => exact Or.inl hk
  | cons d rest ih =>
    simp only [build_image_lists] at hk
    by_cases hf : files_for_dir fs image_dir (basename d) = []
    · rw [if_pos hf] at hk
      exact ih _ hk
    · rw [if_neg hf] at hk
      rcases hp : partition_files tp vp (files_for_dir fs image_dir (basename d)) with
        ⟨tr, te, va⟩
      rw [hp] at hk
      rcases ih _ hk with h1 | h1
      · rw [dict_insert_keys] at h1
        by_cases hs : (dict_lookup acc (label_of (basename d))).isSome
        · rw [if_pos hs] at h1
          exact Or.inl h1
        · rw [if_neg hs] at h1
          rcases List.mem_append.mp h1 with h2 | h2
          · exact Or.inl h2
          · exact Or.inr ⟨d, List.mem_singleton.mp h2⟩
      · exact Or.inr h1

theorem one_hot_getD (cc i j : Nat) (hi : i < cc) :
    (one_hot cc i).getD j 0 = if j = i then (1 : ℚ) else 0 := by
  unfold one_hot
  by_cases hj : j < cc
  · have hlen : j < ((List.range cc).map fun k => if k = i then (1 : ℚ) else 0).length := by
      simpa using hj
    rw [List.getD_eq_getElem _ _ hlen, List.getElem_map]
    simp [List.getElem_range]
  · have hlen : ((List.range cc).map fun k => if k = i then (1 : ℚ) else 0).length ≤ j := by
      simpa using Nat.le_of_not_lt hj
    rw [List.getD_eq_default _ _ hlen, if_neg (fun hji : j = i => hj (by rw [hji]; exact hi))]

/-- C7: the exported label file is one label per line with a trailing
newline, its line order is the dataset key order, the keys are distinct,
and the ground-truth one-hot vectors built by the cached sampler have
their `1.0` exactly at the sampled label's key index — so a label's line
number equals its one-hot index. -/
theorem claim_C7_label_order {α : Type} (env : BEnv α) (fs : FileSystem)
    (image_dir : Str) (tp vp : Nat) (d : Dataset) (picks : List (Nat × Nat))
    (category bottleneck_dir sampler_image_dir : Str) (cache : Cache)
    (btls : List (List α)) (gts : List (List ℚ)) (c' : Cache)
    (hd : create_image_lists fs image_dir tp vp = some d)
    (hne : d ≠ [])
    (hrun : get_random_cached_bottlenecks env d picks category bottleneck_dir
      sampler_image_dir cache = .ok (btls, gts, c')) :
    pySplit '\n' (output_labels_content d) = dataset_keys d ++ [[]] ∧
    (dataset_keys d).Nodup ∧
    gts = picks.map (fun p => one_hot d.length p.1) ∧
    (∀ p ∈ picks, p.1 < d.length ∧
      ∀ j, (one_hot d.length p.1).getD j 0 = if j = p.1 then (1 : ℚ) else 0) := by
  have hbuild : d = build_image_lists fs image_dir tp vp fs.walk_dirs [] := by
    unfold create_image_lists at hd
    by_cases hroot : fs.dir_exists = true
    · rw [if_pos hroot] at hd
      exact (Option.some.inj hd).symm
    · rw [if_neg hroot] at hd
      exact Option.noConfusion hd
  have hkeys : ∀ k ∈ dataset_keys d, '\n' ∉ k := by
    intro k hk
    rcases build_keys_labels fs image_dir tp vp fs.walk_dirs [] k
        (by rw [← hbuild]; exact hk) with h1 | h1
    · simp at h1
    · obtain ⟨dirn, hdirn⟩ := h1
      rw [hdirn]
      exact newline_not_in_label (basename dirn)
  have hkne : dataset_keys d ≠ [] := by
    intro hnil
    exact hne (List.map_eq_nil_iff.mp hnil)
  obtain ⟨hgts, hbounds⟩ := sampler_ground_truths env d picks category
    bottleneck_dir sampler_image_dir cache btls gts c' hrun
  refine ⟨?_, ?_, hgts, ?_⟩
  · unfold output_labels_content
    exact pyJoin_split_trailing '\n' (dataset_keys d) hkne hkeys
  · rw [hbuild]
    exact build_keys_nodup fs image_dir tp vp fs.walk_dirs [] (by simp)
  · intro p hp
    exact ⟨hbounds p hp, fun j => one_hot_getD d.length p.1 j (hbounds p hp)⟩

instance : DecidableEq (List (List Bool) × List (List ℚ) × Cache) :=
  instDecidableEqProd

/-- The environment for the `rootA` tree used by the C7 witness. -/
def demo_env_rootA : BEnv Bool where
  image_content := fun p => if p = "rootA/daisy/leaf.jpg".data then some "IMG".data
    else none
  extract := fun _ => [true, false]
  encode := fun b => if b then ['1'] else ['0']
  decode := fun s => decide (s = ['1'])

/-- Witness for C7: one sampled minibatch over the concrete `rootA` tree. -/
theorem claim_C7_label_order_witness :
    pySplit '\n' (output_labels_content
        [("daisy".data, ⟨"daisy".data, [], [], ["leaf.jpg".data]⟩)]) =
      dataset_keys [("daisy".data, ⟨"daisy".data, [], [], ["leaf.jpg".data]⟩)] ++
        [[]] ∧
    (dataset_keys [("daisy".data,
        (⟨"daisy".data, [], [], ["leaf.jpg".data]⟩ : LabelEntry))]).Nodup ∧
    [one_hot 1 0] = ([((0 : Nat), (5 : Nat))]).map (fun p => one_hot 1 p.1) ∧
    (∀ p ∈ [((0 : Nat), (5 : Nat))], p.1 < 1 ∧
      ∀ j, (one_hot 1 p.1).getD j 0 = if j = p.1 then (1 : ℚ) else 0) := by
  have h := claim_C7_label_order demo_env_rootA fs_rootA "rootA".data 10 50
    [("daisy".data, ⟨"daisy".data, [], [], ["leaf.jpg".data]⟩)]
    [((0 : Nat), (5 : Nat))] "validation".data "cache".data "rootA".data []
    [[true, false]] [one_hot 1 0]
    [("cache/daisy/leaf.jpg.txt".data, "1,0".data)]
    (by decide) (by decide) (by decide)
  exact h

/-- C8: with fewer than two labels in the dataset, `main` reports a
configuration error and never reaches the trainable layer, whatever the
training continuation would compute. -/
theorem claim_C8_refuse_single_label {γ : Type} (fs : FileSystem) (image_dir : Str)
    (tp vp : Nat) (d : Dataset) (train : Dataset → γ)
    (hd : create_image_lists fs image_dir tp vp = some d)
    (hlt : d.length < 2) :
    main_model fs image_dir tp vp train = .config_error := by
  unfold main_model
  rw [hd]
  by_cases h0 : d.length = 0
  · simp [h0]
  · have h1 : d.length = 1 := by omega
    simp [h0, h1]

/-- Witness for C8: the one-label `rootA` tree aborts with a configuration
error. -/
theorem claim_C8_refuse_single_label_witness :
    main_model fs_rootA "rootA".data 10 50 (fun _ => (0 : Nat)) =
      MainOutcome.config_error :=
  claim_C8_refuse_single_label fs_rootA "rootA".data 10 50
    [("daisy".data, ⟨"daisy".data, [], [], ["leaf.jpg".data]⟩)] (fun _ => (0 : Nat))
    (by decide) (by decide)
